import Mathlib

/-!
Verification of the product-extraction and relevance-filtering core of the
nexus-intelligence pipeline (`src/parser/html_parser.py`, class `AmazonParser`).

Strings are modelled as `List Char`; Python `datetime.now()` is modelled as an
explicit `now` parameter threaded through record construction; a BeautifulSoup
card is modelled as a structure holding, for each CSS selector the extractor
consults, the selected element's text when the selection succeeded (an element
that Python would treat as falsy, i.e. absent, is `none`).  Monetary and rating
values are modelled as rationals.  A fragment whose processing raises is
modelled by a `raises` flag on the card; the `try/except` in the extraction
loop corresponds to the branch that drops such a card.
-/

namespace Nexus

/-- Python `str.lower`, character-wise (`Char.toLower` mirrors ASCII lowering). -/
def lower (s : List Char) : List Char := s.map Char.toLower

/-- Python `str.strip()`: drop leading and trailing whitespace. -/
def pyStrip (s : List Char) : List Char :=
  ((s.dropWhile Char.isWhitespace).reverse.dropWhile Char.isWhitespace).reverse

/-- Worker for `pySplit`: `acc` holds the current token, reversed. -/
def pySplitAux : List Char → List Char → List (List Char)
  | [], acc => if acc = [] then [] else [acc.reverse]
  | c :: cs, acc =>
    if c.isWhitespace then
      if acc = [] then pySplitAux cs [] else acc.reverse :: pySplitAux cs []
    else pySplitAux cs (c :: acc)

/-- Python `str.split()` with no argument: split on whitespace runs, no empty tokens. -/
def pySplit (s : List Char) : List (List Char) := pySplitAux s []

/-- Python `str.rstrip("s")`: remove every trailing `'s'`. -/
def rstripS (w : List Char) : List Char := (w.reverse.dropWhile (· = 's')).reverse

/-- Index of the first occurrence of `needle` as a contiguous substring of the
haystack, or `none`.  `Python str.find` returns this index, `-1` when absent. -/
def findSub (needle : List Char) : List Char → Option Nat
  | [] => if needle = [] then some 0 else none
  | c :: cs =>
    if needle.isPrefixOf (c :: cs) then some 0
    else (findSub needle cs).map (· + 1)

/-- Python `needle in hay` (substring containment). -/
def pyIn (needle hay : List Char) : Bool := (findSub needle hay).isSome

/-- Python `hay.find(needle)`: first index, `-1` when absent. -/
def pyFind (needle hay : List Char) : Int :=
  match findSub needle hay with
  | some n => (n : Int)
  | none => -1

/-- `AmazonParser._STOP_WORDS`. -/
def stopWords : List (List Char) :=
  ["for", "with", "and", "the", "a", "an", "in", "on", "of",
   "to", "is", "by", "or", "be", "at", "as", "it", "compatible"].map String.toList

/-- `AmazonParser._ACCESSORY_SIGNALS`. -/
def accessorySignals : List (List Char) :=
  ["compatible with", "compatible for", "for apple", "for iphone",
   "for samsung", "case for", "cover for", "cable for",
   "charger for", "charging cable", "charging cord",
   "mfi certified", "mfi-certified",
   "protector", "tempered glass", "screen guard"].map String.toList

/-- `AmazonParser._relevance_words`: lowercase+strip each whitespace-split token,
keep tokens that are neither stop words nor of length ≤ 2, then `rstrip("s")`
tokens of length > 4. -/
def relevanceWords (query : List Char) : List (List Char) :=
  let words := (pySplit query).map (fun w => pyStrip (lower w))
  let words := words.filter (fun w => !(stopWords.contains w) && decide (w.length > 2))
  words.map (fun w => if w.length > 4 then rstripS w else w)

/-- `AmazonParser._is_relevant`.  Result `none` models the `IndexError` that
`filter_words[0]` raises on an empty `filter_words` (reached only when the
coverage check vacuously passes and no accessory signal prefixes the title). -/
def isRelevant (title : List Char) (filterWords : List (List Char)) : Option Bool :=
  let t := lower title
  if !(filterWords.all (fun w => pyIn w t)) then some false
  else if accessorySignals.any (fun s => s.isPrefixOf t) then some false
  else
    match filterWords with
    | [] => none
    | w :: _ => if pyFind w t > 60 then some false else some true

/-- Numeric value of a list of decimal digits (most significant first). -/
def digitsVal (ds : List Char) : Nat :=
  ds.foldl (fun a c => 10 * a + (c.toNat - 48)) 0

/-- Python `float(s)` restricted to strings of digits and periods (all that can
remain after `_clean_price` strips): succeeds iff there is at least one digit
and at most one period. -/
def parsePyFloat (s : List Char) : Option ℚ :=
  if s.all (fun c => c.isDigit || c = '.') && s.any Char.isDigit
      && decide (s.count '.' ≤ 1) then
    let intPart := s.takeWhile (· ≠ '.')
    let fracPart := (s.dropWhile (· ≠ '.')).drop 1
    some (mkRat (digitsVal intPart * 10 ^ fracPart.length + digitsVal fracPart)
      (10 ^ fracPart.length))
  else none

/-- The `re.sub(r"[^\d.]", "", text)` step of `_clean_price`. -/
def stripNonPriceChars (s : List Char) : List Char :=
  s.filter (fun c => c.isDigit || c = '.')

/-- `AmazonParser._clean_price`: strip every non-digit non-period character and
parse as a decimal; `0` on failure (the `or 0.0` is the identity on the result). -/
def cleanPrice (s : List Char) : ℚ :=
  match parsePyFloat (stripNonPriceChars s) with
  | some q => q
  | none => 0

/-- First match of the regex `(\d+\.?\d*)` in `s`, parsed as a decimal: the
leftmost match starts at the first digit; `\d+` takes the maximal digit run,
`\.?` one optional period, `\d*` the following digit run. -/
def ratingNum (s : List Char) : Option ℚ :=
  match s.dropWhile (fun c => !c.isDigit) with
  | [] => none
  | rest =>
    let ip := rest.takeWhile Char.isDigit
    let after := rest.dropWhile Char.isDigit
    let fp :=
      match after with
      | '.' :: more => more.takeWhile Char.isDigit
      | _ => []
    some (mkRat (digitsVal ip * 10 ^ fp.length + digitsVal fp) (10 ^ fp.length))

/-- The `h2 a` heading link of a card: its `aria-label` attribute (when set)
and its text. -/
structure LinkInfo where
  ariaLabel : Option (List Char)
  text : List Char
  href : Option (List Char)
deriving DecidableEq

/-- One `s-search-result` fragment, holding the text of each element the field
extractors select (`none` = element absent / falsy), plus a `raises` flag
modelling a fragment whose processing raises an exception. -/
structure Card where
  titleSpanText : Option (List Char)
  link : Option LinkInfo
  imgAlt : Option (List Char)
  priceWholeText : Option (List Char)
  priceOffscreenText : Option (List Char)
  ratingText : Option (List Char)
  raises : Bool
deriving DecidableEq

/-- One output product record (the dict built by `_parse_card`). -/
structure Record where
  title : List Char
  price : ℚ
  rating : ℚ
  url : List Char
  platform : List Char
  scrapedAt : List Char
deriving DecidableEq

/-- `AmazonParser._title`: the strategy chain, each candidate accepted only
when its stripped length exceeds 10, otherwise falling through. -/
def extractTitle (c : Card) : Option (List Char) :=
  let try1 : Option (List Char) :=
    c.titleSpanText.bind (fun s =>
      let t := pyStrip s
      if t.length > 10 then some t else none)
  let try2 : Option (List Char) :=
    c.link.bind (fun l =>
      let label := pyStrip (l.ariaLabel.getD [])
      if label.length > 10 then some label
      else
        let t := pyStrip l.text
        if t.length > 10 then some t else none)
  let try3 : Option (List Char) :=
    c.imgAlt.bind (fun s =>
      let t := pyStrip s
      if t.length > 10 then some t else none)
  (try1 <|> try2) <|> try3

/-- `AmazonParser._price`: whole-number element first, offscreen fallback, `0`
when neither is present. -/
def price (c : Card) : ℚ :=
  match c.priceWholeText with
  | some s => cleanPrice s
  | none =>
    match c.priceOffscreenText with
    | some s => cleanPrice s
    | none => 0

/-- `AmazonParser._rating`: first decimal number in the star element's text,
`0` when the element or the number is absent. -/
def rating (c : Card) : ℚ :=
  match c.ratingText with
  | some s => (ratingNum s).getD 0
  | none => 0

/-- `AmazonParser._url`. -/
def url (c : Card) : List Char :=
  match c.link with
  | some l =>
    match l.href with
    | some h =>
      if h = [] then []
      else if ("http".toList).isPrefixOf h then h
      else ("https://www.amazon.in".toList) ++ h
    | none => []
  | none => []

/-- `AmazonParser._parse_card`: reject when the title is `None`/empty or the
price is `0`; otherwise build the record (`now` models `datetime.now()`). -/
def parseCard (now : List Char) (c : Card) : Option Record :=
  match extractTitle c with
  | none => none
  | some t =>
    if t = [] then none
    else if price c = 0 then none
    else some ⟨t, price c, rating c, url c, "Amazon".toList, now⟩

/-- The per-card loop of `_extract_products`: accumulates kept records in
document order and counts a skip exactly when a parsed record fails the
relevance filter; a raising card, a rejected card, and (unreachably) an
`IndexError` inside `_is_relevant` are dropped uncounted by the `try/except`
and the bare `continue`. -/
def extractLoop (fw : List (List Char)) (now : List Char) : List Card → List Record × Nat
  | [] => ([], 0)
  | c :: cs =>
    let rest := extractLoop fw now cs
    if c.raises then rest
    else
      match parseCard now c with
      | none => rest
      | some r =>
        match fw with
        | [] => (r :: rest.1, rest.2)
        | _ :: _ =>
          match isRelevant r.title fw with
          | some true => (r :: rest.1, rest.2)
          | some false => (rest.1, rest.2 + 1)
          | none => rest

/-- `AmazonParser._extract_products`: derive the filter words from the query
(empty query ⇒ no filtering), then run the loop. -/
def extractProducts (now : List Char) (cards : List Card) (query : List Char) :
    List Record × Nat :=
  let fw := if query = [] then [] else relevanceWords query
  extractLoop fw now cards

/-- Variant of the loop that propagates the `IndexError` of `_is_relevant`
instead of modelling the enclosing `try/except`; used to state that the error
branch is unreachable. -/
def extractLoopE (fw : List (List Char)) (now : List Char) :
    List Card → Except Unit (List Record × Nat)
  | [] => .ok ([], 0)
  | c :: cs =>
    match extractLoopE fw now cs with
    | .error e => .error e
    | .ok rest =>
      if c.raises then .ok rest
      else
        match parseCard now c with
        | none => .ok rest
        | some r =>
          match fw with
          | [] => .ok (r :: rest.1, rest.2)
          | _ :: _ =>
            match isRelevant r.title fw with
            | some true => .ok (r :: rest.1, rest.2)
            | some false => .ok (rest.1, rest.2 + 1)
            | none => .error ()

/-- `_extract_products` with the `IndexError` propagated. -/
def extractProductsE (now : List Char) (cards : List Card) (query : List Char) :
    Except Unit (List Record × Nat) :=
  let fw := if query = [] then [] else relevanceWords query
  extractLoopE fw now cards

/-- `pandas.DataFrame.drop_duplicates(subset=["title"])` with the default
`keep="first"`: the first record of each title survives, later ones drop. -/
def dedupByTitle : List Record → List Record
  | [] => []
  | r :: rs => r :: dedupByTitle (rs.filter (fun x => !(x.title = r.title : Bool)))
termination_by l => l.length
decreasing_by
  simp only [List.length_cons]
  exact Nat.lt_succ_of_le (List.length_filter_le _ _)

/-- Outcome of `AmazonParser.parse_file` (saving to parquet elided: the
returned record set and count are what cross the boundary). -/
inductive ParseResult where
  | failure (error : List Char)
  | success (records : List Record) (count : Nat)
deriving DecidableEq

/-- `AmazonParser.parse_file`: extract, fail with `"No products extracted"` on
an empty product list, otherwise deduplicate by title and report the count. -/
def parseFile (now : List Char) (cards : List Card) (query : List Char) : ParseResult :=
  let products := (extractProducts now cards query).1
  if products = [] then .failure ("No products extracted".toList)
  else
    let df := dedupByTitle products
    .success df df.length

/-- `derive_filter_words` exactly as claim C2 words it, including the step
"stripping exactly one trailing s from each remaining token of length > 4". -/
def deriveFilterWordsClaim (query : List Char) : List (List Char) :=
  let toks := (pySplit query).map (fun w => lower w)
  let toks := toks.filter (fun w => !(stopWords.contains w))
  let toks := toks.filter (fun w => decide (w.length > 2))
  toks.map (fun w =>
    if w.length > 4 && (w.getLast? == some 's') then w.dropLast else w)

/-- `derive_filter_words` as claim C2 amended: the singularization step strips
every trailing "s" (Python `rstrip("s")`), not just one. -/
def deriveFilterWordsSpec (query : List Char) : List (List Char) :=
  let toks := (pySplit query).map (fun w => lower w)
  let toks := toks.filter (fun w => !(stopWords.contains w))
  let toks := toks.filter (fun w => decide (w.length > 2))
  toks.map (fun w => if w.length > 4 then rstripS w else w)

/-- A card is counted by the `skipped` counter of `_extract_products` exactly
when it parses into a record that the relevance filter then rejects. -/
def countedAsSkipped (now : List Char) (fw : List (List Char)) (c : Card) : Bool :=
  !c.raises &&
    (match parseCard now c with
     | some r => !fw.isEmpty && decide (isRelevant r.title fw = some false)
     | none => false)

/-- Erase the `scraped_at` field (the only record field depending on the wall
clock). -/
def stripTime (r : Record) : Record :=
  ⟨r.title, r.price, r.rating, r.url, r.platform, []⟩

/-- Overwrite the `scraped_at` field. -/
def setTime (now : List Char) (r : Record) : Record :=
  ⟨r.title, r.price, r.rating, r.url, r.platform, now⟩

/-- A well-formed sample card: the Sony exemplar used throughout the repo's
tests (title span, whole-price "29,990", star label "4.5 out of 5 stars"). -/
def sonyCard : Card :=
  ⟨some ("Sony WH-1000XM5 Wireless Headphones".toList), none, none,
   some ("29,990".toList), none, some ("4.5 out of 5 stars".toList), false⟩

/-- The record `_parse_card` builds from `sonyCard` at time `now`. -/
def sonyRecord (now : List Char) : Record :=
  ⟨"Sony WH-1000XM5 Wireless Headphones".toList, 29990, mkRat 9 2, [],
   "Amazon".toList, now⟩

/-- A malformed card: no title-bearing element at all, so the validator
rejects it. -/
def badCard : Card :=
  ⟨none, none, none, some ("999".toList), none, none, false⟩

/-- A card whose processing raises (models an unexpected structural deviation
mid-fragment caught by the `try/except`). -/
def raisingCard : Card :=
  ⟨some ("Raising fragment title".toList), none, none, some ("123".toList),
   none, none, true⟩

/-- A well-formed card whose star element reads "8.5 out of 5 stars": the raw
regex extraction yields a rating of 8.5, outside `[0,5]`. -/
def overratedCard : Card :=
  ⟨some ("Sony WH-1000XM5 Wireless Headphones".toList), none, none,
   some ("29,990".toList), none, some ("8.5 out of 5 stars".toList), false⟩

/-- A duplicate listing: same title as `sonyCard` but a different price, to
exercise title-deduplication. -/
def sonyCardAlt : Card :=
  ⟨some ("Sony WH-1000XM5 Wireless Headphones".toList), none, none,
   some ("19,990".toList), none, none, false⟩

theorem toNat_ofNat_valid (n : Nat) (h : n < 55296) : (Char.ofNat n).toNat = n := by
  rw [Char.ofNat, dif_pos (Or.inl h)]
  rfl

theorem toLower_not_ws (c : Char) (h : c.isWhitespace = false) :
    (Char.toLower c).isWhitespace = false := by
  show (if c.toNat ≥ 65 ∧ c.toNat ≤ 90 then Char.ofNat (c.toNat + 32) else c).isWhitespace
    = false
  by_cases hc : c.toNat ≥ 65 ∧ c.toNat ≤ 90
  · rw [if_pos hc]
    have hv : (Char.ofNat (c.toNat + 32)).toNat = c.toNat + 32 :=
      toNat_ofNat_valid _ (by omega)
    unfold Char.isWhitespace
    simp only [Bool.or_eq_false_iff, decide_eq_false_iff_not]
    refine ⟨⟨⟨?_, ?_⟩, ?_⟩, ?_⟩ <;> (intro he; rw [he] at hv; simp at hv; try omega)
  · rw [if_neg hc]; exact h

theorem isPrefixOfIff (l1 l2 : List Char) : l1.isPrefixOf l2 = true ↔ l1 <+: l2 :=
  List.isPrefixOf_iff_prefix

theorem infixIntro (l1 l2 : List Char) (h : l1 <+: l2) : l1 <:+: l2 :=
  h.isInfix

theorem findSub_isSome_iff (w t : List Char) : (findSub w t).isSome = true ↔ w <:+: t := by
  induction t with
  | nil =>
    by_cases hw : w = [] <;> simp [findSub, hw]
  | cons c cs ih =>
    by_cases hp : w.isPrefixOf (c :: cs)
    · simp only [findSub, if_pos hp, Option.isSome_some, true_iff]
      exact infixIntro _ _ ((isPrefixOfIff _ _).mp hp)
    · have hmap : (Option.map (fun x => x + 1) (findSub w cs)).isSome
          = (findSub w cs).isSome := by
        cases findSub w cs <;> rfl
      simp only [findSub, if_neg hp]
      rw [hmap, ih, List.infix_cons_iff]
      have hp' : ¬ w <+: (c :: cs) := fun h => hp ((isPrefixOfIff _ _).mpr h)
      tauto

theorem findSub_eq_some_iff (w t : List Char) (n : Nat) :
    findSub w t = some n ↔
      (w <+: t.drop n ∧ ∀ m < n, ¬ w <+: t.drop m) := by
  induction t generalizing n with
  | nil =>
    by_cases hw : w = []
    · subst hw
      simp [findSub]
      constructor
      · rintro rfl
        exact fun m => Nat.zero_le m
      · intro h
        exact (Nat.le_zero.mp (h 0)).symm
    · simp only [findSub, if_neg hw, List.drop_nil]
      constructor
      · intro h; simp at h
      · rintro ⟨h1, -⟩
        exact absurd (List.prefix_nil.mp h1) hw
  | cons c cs ih =>
    by_cases hp : w.isPrefixOf (c :: cs)
    · have hp2 : w <+: (c :: cs) := (isPrefixOfIff _ _).mp hp
      simp only [findSub, if_pos hp, Option.some.injEq]
      constructor
      · rintro rfl
        exact ⟨hp2, fun m hm => absurd hm (Nat.not_lt_zero m)⟩
      · rintro ⟨-, h2⟩
        by_contra hne
        have hn : 0 < n := Nat.pos_of_ne_zero fun h => hne h.symm
        exact h2 0 hn (by simpa using hp2)
    · have hp' : ¬ w <+: (c :: cs) := fun h => hp ((isPrefixOfIff _ _).mpr h)
      simp only [findSub, if_neg hp, Option.map_eq_some']
      constructor
      · rintro ⟨k, hk, rfl⟩
        obtain ⟨h1, h2⟩ := (ih k).mp hk
        refine ⟨by simpa using h1, ?_⟩
        intro m hm
        match m with
        | 0 => simpa using hp'
        | Nat.succ j =>
          have hj : j < k := Nat.lt_of_succ_lt_succ hm
          simpa using h2 j hj
      · rintro ⟨h1, h2⟩
        match n with
        | 0 => exact absurd (by simpa using h1) hp'
        | Nat.succ k =>
          refine ⟨k, (ih k).mpr ⟨by simpa using h1, ?_⟩, rfl⟩
          intro m hm
          have := h2 (m + 1) (Nat.succ_lt_succ hm)
          simpa using this

theorem pyIn_iff (w t : List Char) : pyIn w t = true ↔ w <:+: t :=
  findSub_isSome_iff w t

/-- C1: for a non-empty `filter_words`, `is_relevant` returns true iff every
filter word is a substring of the lowercased title, no accessory-signal phrase
is a prefix of the lowercased title, and the first occurrence of
`filter_words[0]` in the lowercased title is at character offset at most 60. -/
theorem C1_is_relevant_characterization (title : List Char) (fw : List (List Char))
    (w0 : List Char) (hfw : fw.head? = some w0) :
    isRelevant title fw = some true ↔
      ((∀ w ∈ fw, w <:+: lower title) ∧
       (∀ s ∈ accessorySignals, ¬ s <+: lower title) ∧
       ∃ n : Nat, n ≤ 60 ∧ w0 <+: (lower title).drop n ∧
         ∀ m < n, ¬ w0 <+: (lower title).drop m) := by
  cases fw with
  | nil => simp at hfw
  | cons a rest =>
    simp only [List.head?_cons, Option.some.injEq] at hfw
    subst hfw
    set t := lower title with ht
    by_cases h1 : ((a :: rest).all (fun w => pyIn w t)) = true
    · by_cases h2 : (accessorySignals.any (fun s => s.isPrefixOf t)) = true
      · have hLHS : isRelevant title (a :: rest) = some false := by
          simp [isRelevant, ← ht, h1, h2]
        rw [hLHS]
        constructor
        · intro h; simp at h
        · rintro ⟨-, hsig, -⟩
          obtain ⟨s, hs, hps⟩ := List.any_eq_true.mp h2
          exact absurd ((isPrefixOfIff _ _).mp hps) (hsig s hs)
      · have hw0 : pyIn a t = true := by
          have := List.all_eq_true.mp h1 a (by simp)
          simpa using this
        obtain ⟨n0, hn0⟩ : ∃ n0, findSub a t = some n0 := by
          have := Option.isSome_iff_exists.mp hw0
          simpa using this
        have hLHS : isRelevant title (a :: rest)
            = (if (n0 : Int) > 60 then some false else some true) := by
          simp [isRelevant, ← ht, h1, h2, pyFind, hn0]
        rw [hLHS]
        have hcov : ∀ w ∈ a :: rest, w <:+: t := by
          intro w hw
          have := List.all_eq_true.mp h1 w hw
          exact (pyIn_iff w t).mp (by simpa using this)
        have hsig : ∀ s ∈ accessorySignals, ¬ s <+: t := by
          intro s hs hps
          exact h2 (List.any_eq_true.mpr ⟨s, hs, (isPrefixOfIff _ _).mpr hps⟩)
        obtain ⟨hpre0, hfirst0⟩ := (findSub_eq_some_iff a t n0).mp hn0
        by_cases hgt : (n0 : Int) > 60
        · rw [if_pos hgt]
          constructor
          · intro h; simp at h
          · rintro ⟨-, -, n, hn60, hpre, hfirst⟩
            have hfs : findSub a t = some n := (findSub_eq_some_iff a t n).mpr ⟨hpre, hfirst⟩
            rw [hn0] at hfs
            have hnn : n0 = n := Option.some.inj hfs
            exfalso
            omega
        · rw [if_neg hgt]
          constructor
          · rintro -
            exact ⟨hcov, hsig, n0, by omega, hpre0, hfirst0⟩
          · rintro -
            rfl
    · have h1f : ((a :: rest).all (fun w => pyIn w t)) = false := by
        simpa using h1
      have hLHS : isRelevant title (a :: rest) = some false := by
        simp [isRelevant, ← ht, h1f]
      rw [hLHS]
      constructor
      · intro h; simp at h
      · rintro ⟨hcov, -, -⟩
        exfalso
        exact h1 (List.all_eq_true.mpr fun w hw => by
          simpa using (pyIn_iff w t).mpr (hcov w hw))

theorem pySplitAux_no_ws (s : List Char) :
    ∀ acc : List Char, (∀ c ∈ acc, c.isWhitespace = false) →
      ∀ tok ∈ pySplitAux s acc, ∀ c ∈ tok, c.isWhitespace = false := by
  induction s with
  | nil =>
    intro acc hacc tok htok
    by_cases h : acc = []
    · simp [pySplitAux, h] at htok
    · simp only [pySplitAux, if_neg h, List.mem_singleton] at htok
      subst htok
      intro c hc
      exact hacc c (List.mem_reverse.mp hc)
  | cons a as ih =>
    intro acc hacc tok htok
    by_cases hws : a.isWhitespace = true
    · by_cases h : acc = []
      · simp only [pySplitAux, if_pos hws, if_pos h] at htok
        exact ih [] (by simp) tok htok
      · simp only [pySplitAux, if_pos hws, if_neg h, List.mem_cons] at htok
        rcases htok with rfl | htok
        · intro c hc; exact hacc c (List.mem_reverse.mp hc)
        · exact ih [] (by simp) tok htok
    · simp only [pySplitAux, if_neg hws] at htok
      refine ih (a :: acc) ?_ tok htok
      intro c hc
      rcases List.mem_cons.mp hc with rfl | hc
      · simpa using hws
      · exact hacc c hc

theorem dropWhile_ws_eq_self (l : List Char) (h : ∀ c ∈ l, c.isWhitespace = false) :
    l.dropWhile Char.isWhitespace = l := by
  cases l with
  | nil => rfl
  | cons a as => simp [List.dropWhile, h a (by simp)]

theorem pyStrip_eq_self (l : List Char) (h : ∀ c ∈ l, c.isWhitespace = false) :
    pyStrip l = l := by
  unfold pyStrip
  rw [dropWhile_ws_eq_self l h, dropWhile_ws_eq_self, List.reverse_reverse]
  intro c hc
  exact h c (List.mem_reverse.mp hc)

/-- C2 (amended): `derive_filter_words` lowercases and splits on whitespace,
drops stop words and tokens of length ≤ 2, and strips all (not exactly one)
trailing "s" characters from tokens of length > 4; the two cited examples hold. -/
theorem C2_derive_filter_words (q : List Char) :
    relevanceWords q = deriveFilterWordsSpec q ∧
    relevanceWords ("sony headphones".toList) = ["sony".toList, "headphone".toList] ∧
    "for".toList ∉ relevanceWords ("headphones for running".toList) := by
  refine ⟨?_, by decide, by decide⟩
  simp only [relevanceWords, deriveFilterWordsSpec]
  have hmap : (pySplit q).map (fun w => pyStrip (lower w))
      = (pySplit q).map (fun w => lower w) := by
    apply List.map_congr_left
    intro tok htok
    apply pyStrip_eq_self
    intro c hc
    obtain ⟨c0, hc0, rfl⟩ := List.mem_map.mp (by simpa [lower] using hc)
    exact toLower_not_ws c0 (pySplitAux_no_ws q [] (by simp) tok htok c0 hc0)
  rw [hmap, List.filter_filter]
  congr 1
  apply List.filter_congr
  intro a _
  exact Bool.and_comm _ _

/-- C2 witness: the amended equation evaluated at the query "sony headphones". -/
theorem C2_witness :
    relevanceWords ("sony headphones".toList)
      = deriveFilterWordsSpec ("sony headphones".toList) :=
  (C2_derive_filter_words ("sony headphones".toList)).1

/-- C2 counterexample: on the query "class" the code strips both trailing "s"
characters (`rstrip("s")` gives "cla"), while the claim's "exactly one trailing
s" rule would give "clas". -/
theorem C2_counterexample :
    relevanceWords ("class".toList) = ["cla".toList] ∧
    deriveFilterWordsClaim ("class".toList) = ["clas".toList] ∧
    relevanceWords ("class".toList) ≠ deriveFilterWordsClaim ("class".toList) := by
  decide

/-- C1 witness: the characterization applied to
`is_relevant("Apple iPhone 16 Pro 256GB", ["apple", "iphone"])`. -/
theorem C1_witness :
    (∀ w ∈ ["apple".toList, "iphone".toList],
        w <:+: lower ("Apple iPhone 16 Pro 256GB".toList)) ∧
      (∀ s ∈ accessorySignals, ¬ s <+: lower ("Apple iPhone 16 Pro 256GB".toList)) ∧
      ∃ n : Nat, n ≤ 60 ∧
        "apple".toList <+: (lower ("Apple iPhone 16 Pro 256GB".toList)).drop n ∧
        ∀ m < n, ¬ "apple".toList <+: (lower ("Apple iPhone 16 Pro 256GB".toList)).drop m :=
  (C1_is_relevant_characterization ("Apple iPhone 16 Pro 256GB".toList)
    ["apple".toList, "iphone".toList] ("apple".toList) rfl).mp (by decide)

theorem parsePyFloat_nonneg (s : List Char) (q : ℚ) (h : parsePyFloat s = some q) :
    0 ≤ q := by
  unfold parsePyFloat at h
  split at h
  · simp only [Option.some.injEq] at h
    subst h
    rw [Rat.mkRat_eq_div]
    positivity
  · simp at h

theorem cleanPrice_nonneg (s : List Char) : 0 ≤ cleanPrice s := by
  unfold cleanPrice
  cases hp : parsePyFloat (stripNonPriceChars s) with
  | none => simp
  | some q => exact parsePyFloat_nonneg _ q hp

theorem price_nonneg (c : Card) : 0 ≤ price c := by
  unfold price
  cases c.priceWholeText with
  | some s => exact cleanPrice_nonneg s
  | none =>
    cases c.priceOffscreenText with
    | some s => exact cleanPrice_nonneg s
    | none => simp

theorem ratingNum_nonneg (s : List Char) (q : ℚ) (h : ratingNum s = some q) : 0 ≤ q := by
  unfold ratingNum at h
  split at h
  · simp at h
  · simp only [Option.some.injEq] at h
    subst h
    rw [Rat.mkRat_eq_div]
    positivity

theorem rating_nonneg (c : Card) : 0 ≤ rating c := by
  unfold rating
  cases c.ratingText with
  | none => simp
  | some s =>
    cases hr : ratingNum s with
    | none => simp [hr]
    | some q =>
      simp only [hr, Option.getD_some]
      exact ratingNum_nonneg s q hr

theorem parseCard_some_fields (now : List Char) (c : Card) (r : Record)
    (h : parseCard now c = some r) :
    r.price = price c ∧ price c ≠ 0 ∧ r.rating = rating c ∧ r.scrapedAt = now ∧
      (∃ t, extractTitle c = some t ∧ r.title = t) := by
  unfold parseCard at h
  split at h
  · simp at h
  · rename_i t ht
    split at h
    · simp at h
    · split at h
      · simp at h
      · rename_i h0 hp
        simp only [Option.some.injEq] at h
        subst h
        exact ⟨rfl, hp, rfl, rfl, t, ht, rfl⟩

theorem mem_extractLoop (fw : List (List Char)) (now : List Char) (cards : List Card)
    (r : Record) (hr : r ∈ (extractLoop fw now cards).1) :
    ∃ c ∈ cards, parseCard now c = some r := by
  induction cards with
  | nil => simp [extractLoop] at hr
  | cons c cs ih =>
    simp only [extractLoop] at hr
    by_cases hra : c.raises = true
    · rw [if_pos hra] at hr
      obtain ⟨c2, hc2, hp⟩ := ih hr
      exact ⟨c2, by simp [hc2], hp⟩
    · rw [if_neg hra] at hr
      cases hpc : parseCard now c with
      | none =>
        simp only [hpc] at hr
        obtain ⟨c2, hc2, hp⟩ := ih hr
        exact ⟨c2, by simp [hc2], hp⟩
      | some r1 =>
        simp only [hpc] at hr
        cases fw with
        | nil =>
          rcases List.mem_cons.mp hr with rfl | hr2
          · exact ⟨c, by simp, hpc⟩
          · obtain ⟨c2, hc2, hp⟩ := ih hr2
            exact ⟨c2, by simp [hc2], hp⟩
        | cons w ws =>
          cases hrel : isRelevant r1.title (w :: ws) with
          | none =>
            simp only [hrel] at hr
            obtain ⟨c2, hc2, hp⟩ := ih hr
            exact ⟨c2, by simp [hc2], hp⟩
          | some b =>
            simp only [hrel] at hr
            cases b with
            | true =>
              rcases List.mem_cons.mp hr with rfl | hr2
              · exact ⟨c, by simp, hpc⟩
              · obtain ⟨c2, hc2, hp⟩ := ih hr2
                exact ⟨c2, by simp [hc2], hp⟩
            | false =>
              obtain ⟨c2, hc2, hp⟩ := ih hr
              exact ⟨c2, by simp [hc2], hp⟩

/-- C3: the validator produces no record exactly when the extracted title is
absent or empty or the extracted price is 0; consequently every record in the
extraction output has price > 0. -/
theorem C3_validator_and_positive_price (now : List Char) (c : Card)
    (cards : List Card) (q : List Char) (r : Record)
    (hr : r ∈ (extractProducts now cards q).1) :
    (parseCard now c = none ↔
      extractTitle c = none ∨ extractTitle c = some [] ∨ price c = 0) ∧
    0 < r.price := by
  constructor
  · unfold parseCard
    cases ht : extractTitle c with
    | none => simp
    | some t =>
      by_cases h0 : t = []
      · simp [h0]
      · by_cases hp : price c = 0
        · simp [h0, hp]
        · simp [h0, hp]
  · obtain ⟨c2, hc2, hpc⟩ := mem_extractLoop (if q = [] then [] else relevanceWords q)
      now cards r (by simpa [extractProducts] using hr)
    obtain ⟨hpr, hne, -, -, -⟩ := parseCard_some_fields now c2 r hpc
    rw [hpr]
    exact lt_of_le_of_ne (price_nonneg c2) (Ne.symm hne)

/-- C3 witness: the characterization and the positivity applied to the Sony
sample card. -/
theorem C3_witness :
    ((parseCard ("2026-02-17".toList) sonyCard = none ↔
      extractTitle sonyCard = none ∨ extractTitle sonyCard = some [] ∨
        price sonyCard = 0) ∧
    0 < (sonyRecord ("2026-02-17".toList)).price) :=
  C3_validator_and_positive_price ("2026-02-17".toList) sonyCard [sonyCard] []
    (sonyRecord ("2026-02-17".toList)) (by decide)

/-- C4 (amended): a produced record carries the raw extracted rating and price
unchanged — the extraction applies no rounding to 1 (rating) or 2 (price)
decimal places and no clamping to `[0,5]`; the raw rating is nonnegative but
not guaranteed to be ≤ 5. -/
theorem C4_no_normalization (now : List Char) (c : Card) (r : Record)
    (h : parseCard now c = some r) :
    r.rating = rating c ∧ r.price = price c ∧ 0 ≤ r.rating := by
  obtain ⟨hpr, -, hrt, -, -⟩ := parseCard_some_fields now c r h
  refine ⟨hrt, hpr, ?_⟩
  rw [hrt]
  exact rating_nonneg c

/-- C4 witness: the amended statement applied to the Sony sample card. -/
theorem C4_witness :
    (sonyRecord ("2026-02-17".toList)).rating = rating sonyCard ∧
    (sonyRecord ("2026-02-17".toList)).price = price sonyCard ∧
    0 ≤ (sonyRecord ("2026-02-17".toList)).rating :=
  C4_no_normalization ("2026-02-17".toList) sonyCard (sonyRecord ("2026-02-17".toList))
    (by decide)

/-- C4 counterexample: a card whose star element reads "8.5 out of 5 stars"
reaches the output set with rating 8.5, which is neither clamped to `[0,5]`
nor within it — refuting both the claimed normalization and the claimed
invariant. -/
theorem C4_counterexample :
    ((extractProducts ("2026-02-17".toList) [overratedCard] []).1).map Record.rating
        = [(17 : ℚ)/2] ∧
    ¬ ((17 : ℚ)/2 ≤ 5) := by
  constructor
  · have h : ((extractProducts ("2026-02-17".toList) [overratedCard] []).1).map Record.rating
        = [mkRat 17 2] := by decide
    rw [h]
    norm_num [Rat.mkRat_eq_div]
  · norm_num

/-- C5: `_clean_price` strips every character that is not a digit or a period
and parses the remainder as a decimal — an all-digit remainder parses to its
numeric value — returning 0 on parse failure; "₹29,990" yields 29990,
"1,299.00" yields 1299, and "" yields 0. -/
theorem C5_clean_price (s ds : List Char) (hne : ds ≠ [])
    (hds : ∀ c ∈ ds, c.isDigit = true) :
    cleanPrice ("₹29,990".toList) = 29990 ∧
    cleanPrice ("1,299.00".toList) = 1299 ∧
    cleanPrice [] = 0 ∧
    ((stripNonPriceChars s).all (fun c => c.isDigit || c = '.')) = true ∧
    (parsePyFloat (stripNonPriceChars s) = none → cleanPrice s = 0) ∧
    cleanPrice ds = (digitsVal ds : ℚ) := by
  refine ⟨by decide, by decide, by decide, ?_, ?_, ?_⟩
  · rw [List.all_eq_true]
    intro c hc
    exact (List.mem_filter.mp hc).2
  · intro h
    simp [cleanPrice, h]
  · have hdot : ∀ c ∈ ds, ¬ c = '.' := by
      intro c hc he
      have := hds c hc
      rw [he] at this
      simp [Char.isDigit] at this
    have hstrip : stripNonPriceChars ds = ds := by
      rw [stripNonPriceChars, List.filter_eq_self]
      intro c hc
      simp [hds c hc]
    have hcond : (ds.all (fun c => c.isDigit || c = '.') && ds.any Char.isDigit
        && decide (ds.count '.' ≤ 1)) = true := by
      simp only [Bool.and_eq_true]
      refine ⟨⟨?_, ?_⟩, ?_⟩
      · rw [List.all_eq_true]
        intro c hc
        simp [hds c hc]
      · rw [List.any_eq_true]
        cases ds with
        | nil => exact absurd rfl hne
        | cons d rest => exact ⟨d, by simp, hds d (by simp)⟩
      · have : ds.count '.' = 0 := by
          rw [List.count_eq_zero]
          intro hmem
          exact hdot '.' hmem rfl
        simp [this]
    have htake : ds.takeWhile (fun x => decide (x ≠ '.')) = ds := by
      rw [List.takeWhile_eq_self_iff]
      intro c hc
      simp [hdot c hc]
    have hdrop : ds.dropWhile (fun x => decide (x ≠ '.')) = [] := by
      rw [List.dropWhile_eq_nil_iff]
      intro c hc
      simp [hdot c hc]
    unfold cleanPrice parsePyFloat
    rw [hstrip, if_pos hcond, htake, hdrop]
    simp [digitsVal, Rat.mkRat_one]

/-- C5 witness: the conjunction applied at the noise string "abc₹" and the
all-digit string "29990". -/
theorem C5_witness :
    cleanPrice ("₹29,990".toList) = 29990 ∧
    cleanPrice ("1,299.00".toList) = 1299 ∧
    cleanPrice [] = 0 ∧
    ((stripNonPriceChars ("abc₹".toList)).all (fun c => c.isDigit || c = '.')) = true ∧
    (parsePyFloat (stripNonPriceChars ("abc₹".toList)) = none →
      cleanPrice ("abc₹".toList) = 0) ∧
    cleanPrice ("29990".toList) = (digitsVal ("29990".toList) : ℚ) :=
  C5_clean_price ("abc₹".toList) ("29990".toList) (by decide) (by decide)

theorem find?_filter_comm (l : List Record) (p q : Record → Bool)
    (himp : ∀ x, p x = true → q x = true) :
    (l.filter q).find? p = l.find? p := by
  induction l with
  | nil => rfl
  | cons a as ih =>
    by_cases hq : q a = true
    · rw [List.filter_cons_of_pos hq]
      by_cases hp : p a = true
      · rw [List.find?_cons_of_pos _ hp, List.find?_cons_of_pos _ hp]
      · rw [List.find?_cons_of_neg _ (by simpa using hp),
          List.find?_cons_of_neg _ (by simpa using hp)]
        exact ih
    · have hp : p a = false := by
        by_contra hc
        exact hq (himp a (by simpa using hc))
      rw [List.filter_cons_of_neg (by simpa using hq), ih,
        List.find?_cons_of_neg _ (by simp [hp])]

theorem mem_dedupByTitle (l : List Record) (x : Record) :
    x ∈ dedupByTitle l → x ∈ l := by
  induction l using dedupByTitle.induct with
  | case1 =>
    intro hx
    simp [dedupByTitle] at hx
  | case2 r rs ih =>
    intro hx
    rw [dedupByTitle] at hx
    rcases List.mem_cons.mp hx with rfl | hx2
    · exact List.mem_cons_self _ _
    · exact List.mem_cons_of_mem r ((List.mem_filter.mp (ih hx2)).1)

theorem dedup_find_first (t : List Char) :
    ∀ l : List Record, ∀ r0 : Record,
      l.find? (fun r => decide (r.title = t)) = some r0 →
      (dedupByTitle l).filter (fun r => decide (r.title = t)) = [r0] := by
  intro l
  induction l using dedupByTitle.induct with
  | case1 =>
    intro r0 h
    simp at h
  | case2 r rs ih =>
    intro r0 h
    rw [dedupByTitle]
    by_cases hrt : r.title = t
    · have hr0 : r0 = r := by
        rw [List.find?_cons_of_pos _ (by simpa using hrt)] at h
        exact (Option.some.inj h).symm
      subst hr0
      rw [List.filter_cons_of_pos (by simpa using hrt)]
      have hnil : (dedupByTitle (rs.filter
            (fun x => !(x.title = r0.title : Bool)))).filter
          (fun r => decide (r.title = t)) = [] := by
        rw [List.filter_eq_nil_iff]
        intro x hx
        have hx2 := mem_dedupByTitle _ _ hx
        have hne := (List.mem_filter.mp hx2).2
        simp only [Bool.not_eq_eq_eq_not, Bool.not_true, decide_eq_false_iff_not] at hne
        simp only [decide_eq_true_eq]
        intro hxt
        exact hne (hxt.trans hrt.symm)
      rw [hnil]
    · rw [List.filter_cons_of_neg (by simpa using hrt)]
      rw [List.find?_cons_of_neg _ (by simpa using hrt)] at h
      apply ih
      rw [find?_filter_comm]
      · exact h
      · intro x hx
        simp only [decide_eq_true_eq] at hx
        simp only [Bool.not_eq_eq_eq_not, Bool.not_true, decide_eq_false_iff_not]
        intro hxr
        exact hrt (hxr.symm.trans hx)

/-- C6: when a title occurs among the accepted records, the deduplicated
output contains exactly one record with that title, namely the first accepted
record carrying it (first occurrence in document order wins), and a successful
`parse_file` returns exactly that deduplicated list with its length. -/
theorem C6_dedup_first_wins (now : List Char) (cards : List Card) (q t : List Char)
    (r0 : Record)
    (h : ((extractProducts now cards q).1).find? (fun r => decide (r.title = t))
      = some r0) :
    ((dedupByTitle (extractProducts now cards q).1).filter
        (fun r => decide (r.title = t))) = [r0] ∧
    ∀ recs cnt, parseFile now cards q = ParseResult.success recs cnt →
      recs = dedupByTitle (extractProducts now cards q).1 ∧
      cnt = (dedupByTitle (extractProducts now cards q).1).length := by
  refine ⟨dedup_find_first t _ r0 h, ?_⟩
  intro recs cnt hpf
  simp only [parseFile] at hpf
  split at hpf
  · simp at hpf
  · simp only [ParseResult.success.injEq] at hpf
    exact ⟨hpf.1.symm, hpf.2.symm⟩

/-- C6 witness: a document with two fragments sharing the Sony title (prices
29990 and 19990) keeps exactly the first record after deduplication. -/
theorem C6_witness :
    ((dedupByTitle (extractProducts ("2026-02-17".toList) [sonyCard, sonyCardAlt] []).1).filter
        (fun r => decide (r.title = "Sony WH-1000XM5 Wireless Headphones".toList)))
      = [sonyRecord ("2026-02-17".toList)] :=
  (C6_dedup_first_wins ("2026-02-17".toList) [sonyCard, sonyCardAlt] []
    ("Sony WH-1000XM5 Wireless Headphones".toList)
    (sonyRecord ("2026-02-17".toList)) (by decide)).1

theorem extractLoop_raises (fw : List (List Char)) (now : List Char)
    (pre post : List Card) (c : Card) (hc : c.raises = true) :
    extractLoop fw now (pre ++ c :: post) = extractLoop fw now (pre ++ post) := by
  induction pre with
  | nil =>
    show extractLoop fw now (c :: post) = extractLoop fw now post
    simp [extractLoop, hc]
  | cons p ps ih =>
    simp only [List.cons_append, extractLoop, List.append_eq]
    rw [ih]

/-- C7: failures never escape the per-fragment boundary — a raising fragment
is dropped while every other fragment is still processed — and a run with no
surviving products returns the structured "No products extracted" failure
instead of raising. -/
theorem C7_failure_isolation (now q : List Char) (pre post cards : List Card) (c : Card)
    (hc : c.raises = true) (hempty : (extractProducts now cards q).1 = []) :
    extractProducts now (pre ++ c :: post) q = extractProducts now (pre ++ post) q ∧
    parseFile now cards q = ParseResult.failure ("No products extracted".toList) := by
  constructor
  · simpa [extractProducts] using
      extractLoop_raises (if q = [] then [] else relevanceWords q) now pre post c hc
  · simp [parseFile, hempty]

/-- C7 witness: a raising fragment amid Sony cards, and a document whose only
fragment is malformed. -/
theorem C7_witness :
    extractProducts ("2026-02-17".toList) ([sonyCard] ++ raisingCard :: []) []
        = extractProducts ("2026-02-17".toList) ([sonyCard] ++ []) [] ∧
    parseFile ("2026-02-17".toList) [badCard] []
        = ParseResult.failure ("No products extracted".toList) :=
  C7_failure_isolation ("2026-02-17".toList) [] [sonyCard] [] [badCard] raisingCard
    (by decide) (by decide)

theorem extractLoop_skipped (fw : List (List Char)) (now : List Char) (cards : List Card) :
    (extractLoop fw now cards).2 = (cards.filter (countedAsSkipped now fw)).length := by
  induction cards with
  | nil => rfl
  | cons c cs ih =>
    by_cases hra : c.raises = true
    · have hcs : countedAsSkipped now fw c = false := by
        simp [countedAsSkipped, hra]
      have hf : List.filter (countedAsSkipped now fw) (c :: cs)
          = List.filter (countedAsSkipped now fw) cs := by
        rw [List.filter_cons, hcs]
        simp
      simp only [extractLoop, if_pos hra, hf]
      exact ih
    · cases hpc : parseCard now c with
      | none =>
        have hcs : countedAsSkipped now fw c = false := by
          simp [countedAsSkipped, hra, hpc]
        have hf : List.filter (countedAsSkipped now fw) (c :: cs)
            = List.filter (countedAsSkipped now fw) cs := by
          rw [List.filter_cons, hcs]
          simp
        simp only [extractLoop, if_neg hra, hpc, hf]
        exact ih
      | some r =>
        cases fw with
        | nil =>
          have hcs : countedAsSkipped now [] c = false := by
            simp [countedAsSkipped, hra, hpc]
          have hf : List.filter (countedAsSkipped now []) (c :: cs)
              = List.filter (countedAsSkipped now []) cs := by
            rw [List.filter_cons, hcs]
            simp
          simp only [extractLoop, if_neg hra, hpc, hf]
          exact ih
        | cons w ws =>
          cases hrel : isRelevant r.title (w :: ws) with
          | none =>
            have hcs : countedAsSkipped now (w :: ws) c = false := by
              simp [countedAsSkipped, hra, hpc, hrel]
            have hf : List.filter (countedAsSkipped now (w :: ws)) (c :: cs)
                = List.filter (countedAsSkipped now (w :: ws)) cs := by
              rw [List.filter_cons, hcs]
              simp
            simp only [extractLoop, if_neg hra, hpc, hrel, hf]
            exact ih
          | some b =>
            cases b with
            | true =>
              have hcs : countedAsSkipped now (w :: ws) c = false := by
                simp [countedAsSkipped, hra, hpc, hrel]
              have hf : List.filter (countedAsSkipped now (w :: ws)) (c :: cs)
                  = List.filter (countedAsSkipped now (w :: ws)) cs := by
                rw [List.filter_cons, hcs]
                simp
              simp only [extractLoop, if_neg hra, hpc, hrel, hf]
              exact ih
            | false =>
              have hcs : countedAsSkipped now (w :: ws) c = true := by
                simp [countedAsSkipped, hra, hpc, hrel]
              have hf : List.filter (countedAsSkipped now (w :: ws)) (c :: cs)
                  = c :: List.filter (countedAsSkipped now (w :: ws)) cs := by
                rw [List.filter_cons, hcs]
                simp
              simp only [extractLoop, if_neg hra, hpc, hrel, hf, List.length_cons]
              rw [ih]

/-- C8 (amended): the orchestrator's `skipped` counter counts exactly the
fragments whose parsed record the relevance filter rejects; fragments that
fail to produce a record (or raise) are dropped without being counted. -/
theorem C8_skipped_counter (now : List Char) (cards : List Card) (q : List Char) :
    (extractProducts now cards q).2 =
      (cards.filter
        (countedAsSkipped now (if q = [] then [] else relevanceWords q))).length := by
  simpa [extractProducts] using
    extractLoop_skipped (if q = [] then [] else relevanceWords q) now cards

/-- C8 counterexample: a malformed fragment (no title element) fails to
produce a record, yet the run's skipped count stays 0 — validator rejections
are not counted as "skipped", contrary to the claim. -/
theorem C8_counterexample :
    parseCard ("2026-02-17".toList) badCard = none ∧
    (extractProducts ("2026-02-17".toList) [badCard] ("sony headphones".toList)).2 = 0 :=
  ⟨by decide, by decide⟩

theorem parseCard_setTime (now : List Char) (c : Card) :
    parseCard now c = (parseCard [] c).map (setTime now) := by
  unfold parseCard
  cases ht : extractTitle c with
  | none => rfl
  | some t =>
    by_cases h0 : t = []
    · simp [h0]
    · by_cases hp : price c = 0
      · simp [h0, hp]
      · simp [h0, hp, setTime]

theorem extractLoop_time (fw : List (List Char)) (now : List Char) (cards : List Card) :
    extractLoop fw now cards
      = (((extractLoop fw [] cards).1).map (setTime now),
         (extractLoop fw [] cards).2) := by
  induction cards with
  | nil => rfl
  | cons c cs ih =>
    by_cases hra : c.raises = true
    · simp only [extractLoop, if_pos hra]
      exact ih
    · cases hpc : parseCard [] c with
      | none =>
        have hnow : parseCard now c = none := by
          rw [parseCard_setTime, hpc]
          rfl
        simp only [extractLoop, if_neg hra, hpc, hnow]
        exact ih
      | some r =>
        have hnow : parseCard now c = some (setTime now r) := by
          rw [parseCard_setTime, hpc]
          rfl
        have htitle : (setTime now r).title = r.title := rfl
        cases fw with
        | nil =>
          simp only [extractLoop, if_neg hra, hpc, hnow, ih, List.map_cons]
        | cons w ws =>
          cases hrel : isRelevant r.title (w :: ws) with
          | none =>
            simp only [extractLoop, if_neg hra, hpc, hnow, htitle, hrel]
            exact ih
          | some b =>
            cases b with
            | true =>
              simp only [extractLoop, if_neg hra, hpc, hnow, htitle, hrel, ih,
                List.map_cons]
            | false =>
              simp only [extractLoop, if_neg hra, hpc, hnow, htitle, hrel, ih]

/-- C9 (amended): extraction is deterministic in the document and query except
for the `scraped_at` field, which records the wall-clock time of the run: two
runs yield the same records up to `scraped_at` and the same skipped count, and
each record's `scraped_at` equals the run's invocation time. -/
theorem C9_determinism_mod_time (now1 now2 : List Char) (cards : List Card)
    (q : List Char) :
    ((extractProducts now1 cards q).1).map stripTime
        = ((extractProducts now2 cards q).1).map stripTime ∧
    (extractProducts now1 cards q).2 = (extractProducts now2 cards q).2 ∧
    ∀ r ∈ (extractProducts now1 cards q).1, r.scrapedAt = now1 := by
  have h1 : extractProducts now1 cards q
      = (((extractLoop (if q = [] then [] else relevanceWords q) [] cards).1).map
          (setTime now1),
         (extractLoop (if q = [] then [] else relevanceWords q) [] cards).2) := by
    simpa [extractProducts] using
      extractLoop_time (if q = [] then [] else relevanceWords q) now1 cards
  have h2 : extractProducts now2 cards q
      = (((extractLoop (if q = [] then [] else relevanceWords q) [] cards).1).map
          (setTime now2),
         (extractLoop (if q = [] then [] else relevanceWords q) [] cards).2) := by
    simpa [extractProducts] using
      extractLoop_time (if q = [] then [] else relevanceWords q) now2 cards
  refine ⟨?_, ?_, ?_⟩
  · rw [h1, h2]
    simp only [List.map_map]
    rfl
  · rw [h1, h2]
  · intro r hr
    rw [h1] at hr
    obtain ⟨r0, -, rfl⟩ := List.mem_map.mp hr
    rfl

/-- C9 counterexample: on the same single-card document and query, runs at two
different wall-clock times yield different outputs — the records differ in
their `scraped_at` field — so the two runs are not identical as claimed. -/
theorem C9_counterexample :
    extractProducts ("2026-01-01T00:00:00".toList) [sonyCard] []
      ≠ extractProducts ("2026-01-02T00:00:00".toList) [sonyCard] [] := by
  decide

theorem isRelevant_isSome (t : List Char) (fw : List (List Char)) (hfw : fw ≠ []) :
    (isRelevant t fw).isSome = true := by
  cases fw with
  | nil => exact absurd rfl hfw
  | cons w ws =>
    simp only [isRelevant]
    split
    · rfl
    · split
      · rfl
      · split
        · rfl
        · rfl

theorem extractLoopE_ok (fw : List (List Char)) (now : List Char) (cards : List Card) :
    extractLoopE fw now cards = Except.ok (extractLoop fw now cards) := by
  induction cards with
  | nil => rfl
  | cons c cs ih =>
    simp only [extractLoopE, ih]
    by_cases hra : c.raises = true
    · simp [extractLoop, hra]
    · cases hpc : parseCard now c with
      | none => simp [extractLoop, hra, hpc]
      | some r =>
        cases fw with
        | nil => simp [extractLoop, hra, hpc]
        | cons w ws =>
          cases hrel : isRelevant r.title (w :: ws) with
          | none =>
            have hsome := isRelevant_isSome r.title (w :: ws) (by simp)
            rw [hrel] at hsome
            simp at hsome
          | some b =>
            cases b with
            | true => simp [extractLoop, hra, hpc, hrel]
            | false => simp [extractLoop, hra, hpc, hrel]

/-- C10: `is_relevant` is total exactly under the orchestrator's guard — for
non-empty `filter_words` it always returns a Boolean; for empty `filter_words`
the coverage check vacuously passes and (when no accessory signal prefixes the
title) the access `filter_words[0]` raises, modelled as `none`; and the
pipeline never reaches that error because the filter is invoked only when
`filter_words` is non-empty, so the error-propagating run always returns
`ok`. -/
theorem C10_empty_filter_partiality (t1 t2 : List Char) (fw : List (List Char))
    (hfw : fw ≠ [])
    (h2 : (accessorySignals.any (fun s => s.isPrefixOf (lower t2))) = false)
    (now q : List Char) (cards : List Card) :
    (isRelevant t1 fw).isSome = true ∧
    isRelevant t2 [] = none ∧
    extractProductsE now cards q = Except.ok (extractProducts now cards q) := by
  refine ⟨isRelevant_isSome t1 fw hfw, ?_, ?_⟩
  · unfold isRelevant
    simp [h2]
  · simpa [extractProductsE, extractProducts] using
      extractLoopE_ok (if q = [] then [] else relevanceWords q) now cards

/-- C10 witness: totality for the filter words of "sony headphones", the
`IndexError` on the empty list for a plain title, and an error-free pipeline
run over a two-card document. -/
theorem C10_witness :
    (isRelevant ("Sony WH-1000XM5 Wireless Headphones".toList)
        ["sony".toList, "headphone".toList]).isSome = true ∧
    isRelevant ("iPhone 15 Pro".toList) [] = none ∧
    extractProductsE ("2026-02-17".toList) [sonyCard, badCard]
        ("sony headphones".toList)
      = Except.ok (extractProducts ("2026-02-17".toList) [sonyCard, badCard]
        ("sony headphones".toList)) :=
  C10_empty_filter_partiality ("Sony WH-1000XM5 Wireless Headphones".toList)
    ("iPhone 15 Pro".toList) ["sony".toList, "headphone".toList] (by decide)
    (by decide) ("2026-02-17".toList) ("sony headphones".toList) [sonyCard, badCard]

end Nexus
